import Mathlib

/-!
Verification development for the `upstash-as-a-db` package
(`src/index.ts`, `src/tokenization.ts`).

The embedding models JavaScript structured values as `JVal` (a mutual
inductive of values and association-list object fields), the remote
key-value store as an explicit `RedisState` record threaded through the
operations, and the external collaborators at their interface:

* the Upstash client commands `get` / `mget` / `set {get, keepTtl | ex}` /
  `sadd` / `srem` / `smembers` / `persist` are modelled as pure state
  transformers that also record an order-preserving command trace;
* the symmetric cipher (crypto-js AES-CBC/PKCS7, assumed correct and a
  fixed pure function of the configured key and IV) is modelled as an
  injective string transformation with a computable exact inverse;
* `JSON.stringify` / `JSON.parse` are modelled as an injective
  structured-text serialization with a verified parser.

Every `Collection` / `CollectionIndex` / `Tokenizer` method is translated
line by line from the TypeScript source.
-/

namespace UpstashDB

mutual
/-- JavaScript structured values: `null`, `undefined`, strings, integers and
objects (association lists of fields).  Arrays and floats are not needed by
any record the library's operations inspect. -/
inductive JVal : Type where
  | null : JVal
  | undefined : JVal
  | str : String → JVal
  | num : Int → JVal
  | obj : JFields → JVal

/-- Object fields of a `JVal.obj`: an ordered association list, mirroring a
JavaScript object's own enumerable properties (no duplicate keys arise from
the modelled operations). -/
inductive JFields : Type where
  | nil : JFields
  | cons : String → JVal → JFields → JFields
end

deriving instance DecidableEq for JVal
deriving instance Repr for JVal

/-- Number of fields of an object, i.e. `Object.keys(o).length`. -/
def countF : JFields → Nat
  | .nil => 0
  | .cons _ _ r => countF r + 1

/-- First binding of key `k`, i.e. JavaScript property lookup `o[k]`. -/
def lookupF (k : String) : JFields → Option JVal
  | .nil => none
  | .cons k' v r => if k' = k then some v else lookupF k r

/-- JavaScript property access `v[k]`: `undefined` for a missing key and for
any non-object receiver reachable in the library. -/
def getField (v : JVal) (k : String) : JVal :=
  match v with
  | .obj fs => (lookupF k fs).getD .undefined
  | _ => .undefined

/-- JavaScript truthiness of a value: `null`, `undefined`, `""` and `0` are
falsy, everything else (including every object) is truthy. -/
def truthyJ : JVal → Bool
  | .null => false
  | .undefined => false
  | .str s => s ≠ ""
  | .num n => n ≠ 0
  | .obj _ => true

/-- String coercion of a value as performed by a template literal
`${value}` (and by Redis when a value is used as part of a key). -/
def jToString : JVal → String
  | .null => "null"
  | .undefined => "undefined"
  | .str s => s
  | .num n => toString n
  | .obj _ => "[object Object]"

/-- Equality of primitive values, as decided by JavaScript `===` on
non-object operands. -/
def primEq : JVal → JVal → Bool
  | .null, .null => true
  | .undefined, .undefined => true
  | .str a, .str b => a = b
  | .num a, .num b => a = b
  | _, _ => false

/-- JavaScript strict equality `===` between a value freshly decoded from
the store and a value supplied by the caller: primitives compare by value;
two objects originating from different allocations are never identical, so
object operands compare unequal. -/
def strictEqJs : JVal → JVal → Bool
  | .obj _, _ => false
  | _, .obj _ => false
  | a, b => primEq a b

mutual
/-- Deep structural equality in the sense of lodash `isEqual`: primitives by
value, objects by key set (order-insensitive) and recursive value equality. -/
def deepEq : JVal → JVal → Bool
  | .obj fs, .obj gs => countF fs = countF gs && subEq fs gs
  | a, b => primEq a b

/-- Every binding of the first field list deep-equals the corresponding
binding of the second (helper of `deepEq`). -/
def subEq : JFields → JFields → Bool
  | .nil, _ => true
  | .cons k v r, gs =>
    (match lookupF k gs with
     | some w => deepEq v w
     | none => false) && subEq r gs
end

/-- lodash `isEqual`, the comparison used by `Collection.set` for the
optimistic-concurrency check. -/
def isEqualJ (a b : JVal) : Bool := deepEq a b

/-- Fields of `base` in order, with values overridden by `p` where `p` binds
the same key (first half of JavaScript object spread). -/
def overrideFields (base p : JFields) : JFields :=
  match base with
  | .nil => .nil
  | .cons k v r => .cons k ((lookupF k p).getD v) (overrideFields r p)

/-- Bindings of `p` whose keys are absent from `base`, in `p`'s order
(second half of JavaScript object spread). -/
def newKeys (base p : JFields) : JFields :=
  match p with
  | .nil => .nil
  | .cons k v r =>
    if (lookupF k base).isSome then newKeys base r else .cons k v (newKeys base r)

/-- Concatenation of field lists. -/
def appendF : JFields → JFields → JFields
  | .nil, gs => gs
  | .cons k v r, gs => .cons k v (appendF r gs)

/-- JavaScript object spread `\x7b ...base, ...p \x7d`: keys of `base` keep
their position with values overridden by `p`; keys only in `p` follow. -/
def mergeFields (base p : JFields) : JFields :=
  appendF (overrideFields base p) (newKeys base p)

/-- Spread-merge of a patch object over a record, `\x7b ...item, ...p \x7d`.
The record handed in by the library is always an object; a non-object
receiver contributes no own properties. -/
def spreadMerge (item : JVal) (p : JFields) : JVal :=
  match item with
  | .obj fs => .obj (mergeFields fs p)
  | _ => .obj (mergeFields .nil p)

/-- Removal of one field, mirroring the destructuring
`const (id: _, ...itemWithOutId) = item`. -/
def removeF (k : String) : JFields → JFields
  | .nil => .nil
  | .cons k' v r => if k' = k then removeF k r else .cons k' v (removeF k r)

/-- Record without its primary-key field, the argument handed to an
`update` transform callback. -/
def removeField (k : String) (v : JVal) : JVal :=
  match v with
  | .obj fs => .obj (removeF k fs)
  | w => w

/-! ### Serialization (model of `JSON.stringify` / `JSON.parse`)

The canonical structured-text form uses unary length prefixes so that the
parser is total structural recursion and provably the exact inverse of the
printer. -/

/-- Unary encoding of a length: `n` copies of `l` followed by `:`. -/
def encNat (n : Nat) : List Char := List.replicate n 'l' ++ [':']

/-- Length-prefixed encoding of a string. -/
def encStr (s : String) : List Char := encNat s.data.length ++ s.data

mutual
/-- Serialization of a value to canonical structured text. -/
def encV : JVal → List Char
  | .null => ['n']
  | .undefined => ['u']
  | .str s => 's' :: encStr s
  | .num n => if n < 0 then 'i' :: 'm' :: encNat n.natAbs else 'i' :: 'p' :: encNat n.natAbs
  | .obj fs => 'o' :: (encNat (countF fs) ++ encF fs)

/-- Serialization of object fields. -/
def encF : JFields → List Char
  | .nil => []
  | .cons k v r => encStr k ++ (encV v ++ encF r)
end

/-- Parse a unary length prefix. -/
def parseUnary : List Char → Option (Nat × List Char)
  | ':' :: r => some (0, r)
  | 'l' :: r =>
    match parseUnary r with
    | some (n, r') => some (n + 1, r')
    | none => none
  | _ => none

/-- Parse a length-prefixed string. -/
def parseStrBody (cs : List Char) : Option (String × List Char) :=
  match parseUnary cs with
  | some (n, r) => if n ≤ r.length then some (String.mk (r.take n), r.drop n) else none
  | none => none

mutual
/-- Fuel-indexed parser for serialized values. -/
def parseV : Nat → List Char → Option (JVal × List Char)
  | 0, _ => none
  | Nat.succ fuel, cs =>
    match cs with
    | 'n' :: r => some (.null, r)
    | 'u' :: r => some (.undefined, r)
    | 's' :: r =>
      match parseStrBody r with
      | some (s, r') => some (.str s, r')
      | none => none
    | 'i' :: 'p' :: r =>
      match parseUnary r with
      | some (n, r') => some (.num (n : Int), r')
      | none => none
    | 'i' :: 'm' :: r =>
      match parseUnary r with
      | some (n, r') => some (.num (-(n : Int)), r')
      | none => none
    | 'o' :: r =>
      match parseUnary r with
      | some (n, r') =>
        match parseF fuel n r' with
        | some (fs, r'') => some (.obj fs, r'')
        | none => none
      | none => none
    | _ => none

/-- Fuel-indexed parser for a counted list of object fields. -/
def parseF : Nat → Nat → List Char → Option (JFields × List Char)
  | 0, _, _ => none
  | Nat.succ _, 0, cs => some (.nil, cs)
  | Nat.succ fuel, Nat.succ n, cs =>
    match parseStrBody cs with
    | some (k, r) =>
      match parseV fuel r with
      | some (v, r') =>
        match parseF fuel n r' with
        | some (fs, r'') => some (.cons k v fs, r'')
        | none => none
      | none => none
    | none => none
end

mutual
/-- Fuel needed to parse a value back. -/
def sizeV : JVal → Nat
  | .obj fs => sizeF fs + 1
  | _ => 1

/-- Fuel needed to parse a field list back. -/
def sizeF : JFields → Nat
  | .nil => 1
  | .cons _ v r => sizeV v + sizeF r + 1
end

theorem parseUnary_encNat (n : Nat) (rest : List Char) :
    parseUnary (encNat n ++ rest) = some (n, rest) := by
  induction n with
  | zero => simp [encNat, parseUnary]
  | succ m ih =>
    have ih' : parseUnary (List.replicate m 'l' ++ ':' :: rest) = some (m, rest) := by
      simpa [encNat] using ih
    simp [encNat, parseUnary, List.replicate_succ, ih']

theorem string_mk_data (s : String) : String.mk s.data = s := rfl

theorem parseStrBody_encStr (s : String) (rest : List Char) :
    parseStrBody (encStr s ++ rest) = some (s, rest) := by
  simp only [encStr, List.append_assoc, parseStrBody, parseUnary_encNat]
  rw [if_pos (by simp)]
  rw [List.take_left, List.drop_left, string_mk_data]

mutual
theorem parseV_encV (v : JVal) (fuel : Nat) (rest : List Char)
    (h : sizeV v ≤ fuel) : parseV fuel (encV v ++ rest) = some (v, rest) := by
  cases fuel with
  | zero => exfalso; cases v <;> simp [sizeV] at h
  | succ f =>
    cases v with
    | null => simp [encV, parseV]
    | undefined => simp [encV, parseV]
    | str s => simp [encV, parseV, parseStrBody_encStr]
    | num n =>
      by_cases hn : n < 0
      · have habs : (-(n.natAbs : Int)) = n := by omega
        simp only [encV, if_pos hn, List.cons_append, parseV, List.append_assoc,
          parseUnary_encNat, habs]
      · have habs : ((n.natAbs : Int)) = n := by omega
        simp only [encV, if_neg hn, List.cons_append, parseV, List.append_assoc,
          parseUnary_encNat, habs]
    | obj fs =>
      have hf : sizeF fs ≤ f := by simp [sizeV] at h; omega
      simp [encV, parseV, parseUnary_encNat, parseF_encF fs f rest hf]

theorem parseF_encF (fs : JFields) (fuel : Nat) (rest : List Char)
    (h : sizeF fs ≤ fuel) : parseF fuel (countF fs) (encF fs ++ rest) = some (fs, rest) := by
  cases fuel with
  | zero => exfalso; cases fs <;> simp [sizeF] at h
  | succ f =>
    cases fs with
    | nil => simp [encF, countF, parseF]
    | cons k v r =>
      have hv : sizeV v ≤ f := by simp [sizeF] at h; omega
      have hr : sizeF r ≤ f := by simp [sizeF] at h; omega
      simp [encF, countF, parseF, parseStrBody_encStr, List.append_assoc,
        parseV_encV v f (encF r ++ rest) hv, parseF_encF r f rest hr]
end

mutual
theorem sizeV_le_len (v : JVal) : sizeV v ≤ 2 * (encV v).length := by
  cases v with
  | null => simp [sizeV, encV]
  | undefined => simp [sizeV, encV]
  | str s => simp [sizeV, encV, encStr, encNat]; omega
  | num n =>
    by_cases hn : n < 0 <;> (simp [sizeV, encV, hn, encNat]; omega)
  | obj fs =>
    have := sizeF_le_len fs
    simp only [sizeV, encV, List.length_cons, List.length_append]
    have h1 : 1 ≤ (encNat (countF fs)).length := by simp [encNat]
    omega

theorem sizeF_le_len (fs : JFields) : sizeF fs ≤ 2 * (encF fs).length + 1 := by
  cases fs with
  | nil => simp [sizeF, encF]
  | cons k v r =>
    have hv := sizeV_le_len v
    have hr := sizeF_le_len r
    have hk : 1 ≤ (encStr k).length := by simp [encStr, encNat]; omega
    simp only [sizeF, encF, List.length_append]
    omega
end

/-- Model of `JSON.stringify`. -/
def jsonStringify (v : JVal) : String := String.mk (encV v)

/-- Model of `JSON.parse`: runs the parser with ample fuel and requires the
whole input to be consumed. -/
def jsonParse (s : String) : Option JVal :=
  match parseV (2 * s.data.length + 2) s.data with
  | some (v, []) => some v
  | _ => none

theorem jsonParse_stringify (v : JVal) : jsonParse (jsonStringify v) = some v := by
  have hlen : sizeV v ≤ 2 * (encV v).length + 2 := by
    have := sizeV_le_len v
    omega
  have h := parseV_encV v (2 * (encV v).length + 2) [] hlen
  rw [List.append_nil] at h
  simp only [jsonParse, jsonStringify]
  rw [h]

/-! ### Cipher collaborator and `Tokenizer` (src/tokenization.ts)

The AES-CBC/PKCS7 cipher is an external collaborator assumed correct: for a
fixed key and IV it is a deterministic injective map from plaintext to an
opaque ciphertext text encoding, with an exact inverse.  It is modelled as a
marked, reversible string transformation; the key and IV are carried as
parameters of the collaborator interface. -/

/-- Cipher collaborator: encryption of a plaintext string under a fixed key
and IV into an opaque ciphertext string. -/
def cipherEncrypt (secretKey iv plain : String) : String :=
  String.mk ('e' :: 'n' :: 'c' :: ':' :: plain.data.reverse)

/-- Cipher collaborator: decryption, the exact inverse of `cipherEncrypt`;
fails on any string that is not well-formed ciphertext. -/
def cipherDecrypt (secretKey iv ciphertext : String) : Option String :=
  match ciphertext.data with
  | 'e' :: 'n' :: 'c' :: ':' :: rest => some (String.mk rest.reverse)
  | _ => none

theorem cipherDecrypt_encrypt (k iv p : String) :
    cipherDecrypt k iv (cipherEncrypt k iv p) = some p := by
  simp [cipherEncrypt, cipherDecrypt, string_mk_data]

/-- Errors raised by the library (JavaScript `throw` values, distinguished
here by their message). -/
inductive DbErr : Type where
  /-- "Secret key and IV must be provided!" (Tokenizer constructor). -/
  | emptyKeyOrIV : DbErr
  /-- Decryption or JSON parsing of a stored token failed. -/
  | decodeError : DbErr
  /-- "Expected old data does not match the actual data. Concurrent update
  detected." -/
  | concurrentUpdate : DbErr
  /-- "Cannot add index to a auto-expiring collection." -/
  | indexOnTTL : DbErr
  /-- "Can't use Collection.setex when having indexes installed!" -/
  | setexWithIndexes : DbErr
  /-- "Item in collection ... with id ... not found." (update). -/
  | notFound : DbErr
  /-- "Error while updating item ... No more retries left." -/
  | noRetriesLeft : DbErr
  deriving DecidableEq, Repr

/-- The `Tokenizer` class state: the configured secret key and IV. -/
structure Tok : Type where
  secretKey : String
  iv : String
  deriving DecidableEq, Repr

/-- The `Tokenizer` constructor: fails when the secret key or the IV is
missing or empty (`!secretKey || !iv`). -/
def mkTokenizer (secretKey iv : String) : Except DbErr Tok :=
  if secretKey = "" ∨ iv = "" then .error .emptyKeyOrIV else .ok ⟨secretKey, iv⟩

/-- `Tokenizer.toToken`: serialize the payload and encrypt it into an opaque
ciphertext string. -/
def Tok.toToken (t : Tok) (payload : JVal) : String :=
  cipherEncrypt t.secretKey t.iv (jsonStringify payload)

/-- `Tokenizer.fromToken`: decrypt the token and parse the plaintext; any
failure of either step surfaces as a decoding error. -/
def Tok.fromToken (t : Tok) (token : String) : Except DbErr JVal :=
  match cipherDecrypt t.secretKey t.iv token with
  | none => .error .decodeError
  | some plain =>
    match jsonParse plain with
    | none => .error .decodeError
    | some v => .ok v

theorem fromToken_toToken (t : Tok) (v : JVal) :
    Tok.fromToken t (Tok.toToken t v) = .ok v := by
  simp [Tok.fromToken, Tok.toToken, cipherDecrypt_encrypt, jsonParse_stringify]

/-! ### The store collaborator (Upstash Redis client)

State of the remote store plus an observation trace: the ordered list of
commands issued to the client, and the fixed backoff sleeps performed by
`update`.  String-valued keys (`kv`/`ttl`) and set-valued keys (`sets`) are
kept in separate maps; the library never aims the two command families at
the same key. -/

/-- Commands issued to the store client, in issue order. -/
inductive StoreCmd : Type where
  | getC : String → StoreCmd
  | mgetC : List String → StoreCmd
  /-- `set(key, value, opts)` with `get: true`; records `keepTtl` and the
  optional `ex` expiry. -/
  | setC : String → JVal → Bool → Option Nat → StoreCmd
  | saddC : String → String → StoreCmd
  | sremC : String → String → StoreCmd
  | smembersC : String → StoreCmd
  | persistC : String → StoreCmd
  | delC : String → StoreCmd
  deriving DecidableEq, Repr

/-- State of the backing store, with the command trace and backoff log. -/
structure RedisState : Type where
  kv : String → Option JVal
  ttl : String → Option Nat
  sets : String → List String
  trace : List StoreCmd
  waits : List Nat

/-- Value the client returns for a read of `k`: the stored value, or
JavaScript `null` when the key is absent. -/
def jread (st : RedisState) (k : String) : JVal :=
  (st.kv k).getD .null

/-- Commands buffered in a `redis.pipeline()` by `Collection.set`. -/
inductive PipeCmd : Type where
  | sadd : String → String → PipeCmd
  | srem : String → String → PipeCmd
  deriving DecidableEq, Repr

/-- Effect of one pipeline command on the store: `sadd` adds a member to a
set (no-op when present), `srem` removes it.  (The state is destructured
once so that closed runs evaluate in linear time.) -/
def applyCmd (st : RedisState) : PipeCmd → RedisState
  | .sadd k m =>
    match st with
    | ⟨kv, ttl, sets, trace, waits⟩ =>
      ⟨kv, ttl,
        fun k' => if k' = k then (if m ∈ sets k then sets k else sets k ++ [m]) else sets k',
        trace ++ [.saddC k m], waits⟩
  | .srem k m =>
    match st with
    | ⟨kv, ttl, sets, trace, waits⟩ =>
      ⟨kv, ttl,
        fun k' => if k' = k then (sets k).filter (fun x => x ≠ m) else sets k',
        trace ++ [.sremC k m], waits⟩

/-- `pipeline.exec()`: run the buffered commands in enqueue order. -/
def execPipe (st : RedisState) : List PipeCmd → RedisState
  | [] => st
  | c :: cs => execPipe (applyCmd st c) cs

/-! ### `Collection` (src/index.ts) -/

/-- Immutable configuration of a `Collection` instance after construction
(`indexes` grows through `addIndex`, which returns the extended
configuration). -/
structure CollectionCfg : Type where
  /-- `this.keyPrefix`, already normalized by the constructor. -/
  prefixKey : String
  /-- `this.defaultTTL` (`null` is `none`). -/
  defaultTTL : Option Nat
  /-- `this.tokenizer`, present exactly when encryption is enabled. -/
  tokenizer : Option Tok
  /-- `this.indexes`, in registration order. -/
  indexes : List String

/-- JavaScript truthiness of `this.defaultTTL` (a `number | null`): truthy
exactly when non-null and non-zero. -/
def truthyTTL : Option Nat → Bool
  | none => false
  | some n => n ≠ 0

/-- The `Collection` constructor.  `keyPrefix` gets a `:` suffix when given
and truthy; `meta?.defaultTTL || null` turns `0` and absence into `null`;
an `enableEncryption` block constructs the `Tokenizer` (which may throw). -/
def mkCollection (keyPrefixOpt : Option String) (enableEncryption : Option (String × String))
    (defaultTTLOpt : Option Nat) : Except DbErr CollectionCfg :=
  let kp := match keyPrefixOpt with
    | some s => if s ≠ "" then s ++ ":" else ""
    | none => ""
  let dttl := match defaultTTLOpt with
    | some n => if n = 0 then none else some n
    | none => none
  match enableEncryption with
  | none => .ok ⟨kp, dttl, none, []⟩
  | some (secret, iv) =>
    match mkTokenizer secret iv with
    | .error e => .error e
    | .ok t => .ok ⟨kp, dttl, some t, []⟩

/-- `Collection.decrypt`: with a tokenizer, `fromToken(data as string)` —
which fails on any non-string input (in particular on the `null` returned
for a missing previous value, and on an already-decoded record object);
without a tokenizer, the cast `data as T` returns the value unchanged. -/
def decryptJ (cfg : CollectionCfg) (data : JVal) : Except DbErr JVal :=
  match cfg.tokenizer with
  | none => .ok data
  | some t =>
    match data with
    | .str s => Tok.fromToken t s
    | _ => .error .decodeError

/-- `Collection.encrypt`: with a tokenizer, the opaque token string;
without, the record itself. -/
def encryptJ (cfg : CollectionCfg) (data : JVal) : JVal :=
  match cfg.tokenizer with
  | none => data
  | some t => .str (Tok.toToken t data)

/-- Storage key of a record id: `` `${this.keyPrefix}${id}` ``. -/
def keyOf (cfg : CollectionCfg) (id : JVal) : String :=
  cfg.prefixKey ++ jToString id

/-- Storage key of a record as used by `set`: `` `${this.keyPrefix}${data.id}` ``. -/
def recKey (cfg : CollectionCfg) (data : JVal) : String :=
  keyOf cfg (getField data "id")

/-- Index-entry set key: `` `${this.keyPrefix}idx_${field}:${value}` ``. -/
def idxKey (cfg : CollectionCfg) (field : String) (value : JVal) : String :=
  cfg.prefixKey ++ "idx_" ++ field ++ ":" ++ jToString value

/-- `Collection.addIndex`: rejects TTL collections, then appends the field
to `this.indexes` and returns a `CollectionIndex` handle (modelled as the
field name, with the extended configuration). -/
def addIndex (cfg : CollectionCfg) (indexOn : String) : Except DbErr (CollectionCfg × String) :=
  if truthyTTL cfg.defaultTTL then .error .indexOnTTL
  else .ok ({ cfg with indexes := cfg.indexes ++ [indexOn] }, indexOn)

/-- `Collection.get`. -/
def collGet (cfg : CollectionCfg) (st : RedisState) (id : JVal) :
    Except DbErr (Option JVal) × RedisState :=
  match st with
  | ⟨kv, ttl, sets, trace, waits⟩ =>
    let key := keyOf cfg id
    let raw := (kv key).getD .null
    let st1 : RedisState := ⟨kv, ttl, sets, trace ++ [.getC key], waits⟩
    if truthyJ raw = false then (.ok none, st1)
    else
      match decryptJ cfg raw with
      | .error e => (.error e, st1)
      | .ok v => (.ok (some v), st1)

/-- The `datas.map(...)` body of `getMany`: each position maps to `null`
when falsy and is decoded otherwise; since a JavaScript `Array.map`
callback throws through, the first decode failure aborts the whole
traversal. -/
def mapDecode (cfg : CollectionCfg) : List JVal → Except DbErr (List (Option JVal))
  | [] => .ok []
  | d :: ds =>
    match (if truthyJ d = false then Except.ok none else (decryptJ cfg d).map some) with
    | .error e => .error e
    | .ok v =>
      match mapDecode cfg ds with
      | .error e => .error e
      | .ok vs => .ok (v :: vs)

/-- `Collection.getMany`: empty input short-circuits without a store round
trip; otherwise one `mget`, then the per-position decode map. -/
def collGetMany (cfg : CollectionCfg) (st : RedisState) (ids : List JVal) :
    Except DbErr (List (Option JVal)) × RedisState :=
  match ids with
  | [] => (.ok [], st)
  | _ :: _ =>
    match st with
    | ⟨kv, ttl, sets, trace, waits⟩ =>
      let keys := ids.map (keyOf cfg)
      let raws := keys.map (fun k => (kv k).getD .null)
      let st1 : RedisState := ⟨kv, ttl, sets, trace ++ [.mgetC keys], waits⟩
      match mapDecode cfg raws with
      | .error e => (.error e, st1)
      | .ok vs => (.ok vs, st1)

/-- `Collection.setex`: rejected when any index is registered; otherwise a
single `set(key, value, (ex: ttl, get: true))` whose returned previous
value is discarded undecoded, returning the input record verbatim. -/
def collSetex (cfg : CollectionCfg) (st : RedisState) (data : JVal) (ttl : Nat) :
    Except DbErr JVal × RedisState :=
  if cfg.indexes ≠ [] then (.error .setexWithIndexes, st)
  else
    match st with
    | ⟨kv, sttl, sets, trace, waits⟩ =>
      let key := recKey cfg data
      let stored := encryptJ cfg data
      (.ok data,
        ⟨fun k => if k = key then some stored else kv k,
          fun k => if k = key then some ttl else sttl k,
          sets, trace ++ [.setC key stored false (some ttl)], waits⟩)

/-- `Collection.set`: delegates to `setex` under a default TTL; otherwise a
get-and-set with `keepTtl`, decode of the returned previous value, the
optimistic-concurrency comparison, and index maintenance through one
pipeline (`sadd` under each new field value; `srem` under each changed
previous field value when a previous record existed and decoded). -/
def collSet (cfg : CollectionCfg) (st : RedisState) (data : JVal) (expectedOld : Option JVal) :
    Except DbErr JVal × RedisState :=
  if truthyTTL cfg.defaultTTL then collSetex cfg st data (cfg.defaultTTL.getD 0)
  else
    match st with
    | ⟨kv, ttl, sets, trace, waits⟩ =>
    let key := recKey cfg data
    let stored := encryptJ cfg data
    let rawOld := (kv key).getD .null
    let st1 : RedisState :=
      ⟨fun k => if k = key then some stored else kv k, ttl, sets,
        trace ++ [.setC key stored true none], waits⟩
    match decryptJ cfg rawOld with
    | .error e => (.error e, st1)
    | .ok old =>
      let mismatch := match expectedOld with
        | some e => truthyJ e && !(isEqualJ old e)
        | none => false
      if mismatch then (.error .concurrentUpdate, st1)
      else if cfg.indexes = [] then (.ok data, st1)
      else
        let member := jToString (getField data "id")
        let pipe1 := cfg.indexes.map (fun f => PipeCmd.sadd (idxKey cfg f (getField data f)) member)
        if truthyJ old = false then (.ok data, execPipe st1 pipe1)
        else
          match decryptJ cfg old with
          | .error e => (.error e, st1)
          | .ok oldData =>
            let pipe2 := pipe1 ++ cfg.indexes.filterMap (fun f =>
              if strictEqJs (getField oldData f) (getField data f) then none
              else some (PipeCmd.srem (idxKey cfg f (getField oldData f)) member))
            if pipe2.length > 0 then (.ok data, execPipe st1 pipe2) else (.ok data, st1)

/-- The effective patch of an `update` call: the partial object itself, or
the result of the transform callback applied to the record without its
primary key. -/
inductive UpdateArg : Type where
  | patch : JFields → UpdateArg
  | transform : (JVal → JFields) → UpdateArg

/-- Patch object `update` merges over the current record. -/
def effPatch (arg : UpdateArg) (item : JVal) : JFields :=
  match arg with
  | .patch p => p
  | .transform f => f (removeField "id" item)

/-- `Collection.update`.  The source recurses with an upward `_retry`
counter bounded by `< 3`; it is modelled by the equivalent downward
`remaining = 3 - _retry` budget (initial call: `remaining = 3`).  Every
error thrown by the inner `set` is caught and retried after a fixed 100 ms
backoff (recorded in `waits`); once the budget is exhausted the terminal
update error replaces the inner error.  Errors of the initial read are not
caught. -/
def collUpdate (cfg : CollectionCfg) (st : RedisState) (id : JVal) (arg : UpdateArg)
    (remaining : Nat) : Except DbErr JVal × RedisState :=
  match collGet cfg st id with
  | (.error e, st1) => (.error e, st1)
  | (.ok none, st1) => (.error .notFound, st1)
  | (.ok (some item), st1) =>
    let updatedItem := spreadMerge item (effPatch arg item)
    match collSet cfg st1 updatedItem (some item) with
    | (.ok d, st2) => (.ok d, st2)
    | (.error _, st2) =>
      match remaining with
      | r + 1 =>
        match st2 with
        | ⟨kv, ttl, sets, trace, waits⟩ =>
          collUpdate cfg ⟨kv, ttl, sets, trace, waits ++ [100]⟩ id arg r
      | 0 => (.error .noRetriesLeft, st2)

/-- `Collection.persist`. -/
def collPersist (cfg : CollectionCfg) (st : RedisState) (id : JVal) : RedisState :=
  match st with
  | ⟨kv, ttl, sets, trace, waits⟩ =>
    let key := keyOf cfg id
    ⟨kv, fun k => if k = key then none else ttl k, sets, trace ++ [.persistC key], waits⟩

/-- Modelled from the spec: `Collection.delete` is specified in §4.2 ("removes
the stored key; does not itself remove index-entry memberships") and called
by the package README, but no such method exists in src/src/index.ts.  It is
modelled as a single store `del` of the prefixed key, which also drops the
key's expiry, and touches no index-entry set. -/
def collDelete (cfg : CollectionCfg) (st : RedisState) (id : JVal) : RedisState :=
  match st with
  | ⟨kv, ttl, sets, trace, waits⟩ =>
    let key := keyOf cfg id
    ⟨fun k => if k = key then none else kv k,
      fun k => if k = key then none else ttl k,
      sets, trace ++ [.delC key], waits⟩

/-- `CollectionIndex.getItems`: `smembers` of the index-entry set, early
return on the empty set, `getMany` over the members, and filtering of
`null` materializations. -/
def idxGetItems (cfg : CollectionCfg) (st : RedisState) (field : String) (value : JVal) :
    Except DbErr (List JVal) × RedisState :=
  match st with
  | ⟨kv, ttl, sets, trace, waits⟩ =>
    let key := idxKey cfg field value
    let members := sets key
    let st1 : RedisState := ⟨kv, ttl, sets, trace ++ [.smembersC key], waits⟩
    if members = [] then (.ok [], st1)
    else
      match collGetMany cfg st1 (members.map JVal.str) with
      | (.error e, st2) => (.error e, st2)
      | (.ok items, st2) => (.ok (items.filterMap id), st2)

/-! ### Frame lemmas for the pipeline -/

theorem applyCmd_ttl (st : RedisState) (c : PipeCmd) : (applyCmd st c).ttl = st.ttl := by
  cases c <;> rfl

theorem applyCmd_kv (st : RedisState) (c : PipeCmd) : (applyCmd st c).kv = st.kv := by
  cases c <;> rfl

theorem applyCmd_waits (st : RedisState) (c : PipeCmd) : (applyCmd st c).waits = st.waits := by
  cases c <;> rfl

theorem execPipe_ttl (cs : List PipeCmd) (st : RedisState) : (execPipe st cs).ttl = st.ttl := by
  induction cs generalizing st with
  | nil => rfl
  | cons c cs ih => rw [execPipe, ih, applyCmd_ttl]

theorem execPipe_kv (cs : List PipeCmd) (st : RedisState) : (execPipe st cs).kv = st.kv := by
  induction cs generalizing st with
  | nil => rfl
  | cons c cs ih => rw [execPipe, ih, applyCmd_kv]

theorem execPipe_waits (cs : List PipeCmd) (st : RedisState) : (execPipe st cs).waits = st.waits := by
  induction cs generalizing st with
  | nil => rfl
  | cons c cs ih => rw [execPipe, ih, applyCmd_waits]

/-! ### Concrete instances shared by witnesses and counterexamples -/

/-- An empty store with an empty trace. -/
def exStEmpty : RedisState := ⟨fun _ => none, fun _ => none, fun _ => [], [], []⟩

/-- A tokenizer with a (model-level) key and IV. -/
def exTok : Tok := ⟨"aa", "bb"⟩

/-- A record `(id: "c1", name: "v")`. -/
def recC1 : JVal := .obj (.cons "id" (.str "c1") (.cons "name" (.str "v") .nil))

/-- The record with the other `name`, `(id: "c1", name: "w")`. -/
def recC1w : JVal := .obj (.cons "id" (.str "c1") (.cons "name" (.str "w") .nil))

/-! ## Claims -/

/-- C1: on a Collection without a default TTL, a `set` whose supplied
`expectedPrevious` is not deep-structurally equal to the (successfully)
decoded previous stored token fails with the concurrent-update error, and
in the resulting state the stored token at the record's primary key is
already the newly written token (the primary write is not rolled back)
while the trace grew only by the primary `set` command — no
index-maintenance `sadd`/`srem` was issued. -/
theorem set_mismatch_rejects_after_write (cfg : CollectionCfg) (st : RedisState)
    (data e old : JVal)
    (httl : truthyTTL cfg.defaultTTL = false)
    (hold : decryptJ cfg (jread st (recKey cfg data)) = .ok old)
    (hte : truthyJ e = true)
    (hne : isEqualJ old e = false) :
    collSet cfg st data (some e) =
      (.error .concurrentUpdate,
        { st with
          kv := fun k => if k = recKey cfg data then some (encryptJ cfg data) else st.kv k
          trace := st.trace ++ [.setC (recKey cfg data) (encryptJ cfg data) true none] }) := by
  have hold' : decryptJ cfg ((st.kv (recKey cfg data)).getD JVal.null) = .ok old := hold
  simp [collSet, httl, hte, hold', hne]

theorem set_mismatch_rejects_after_write_witness :
    collSet ⟨"", none, none, []⟩
        { exStEmpty with kv := fun k => if k = "c1" then some recC1 else none }
        recC1w (some recC1w) =
      (.error .concurrentUpdate,
        { { exStEmpty with kv := fun k => if k = "c1" then some recC1 else none } with
          kv := fun k =>
            if k = recKey ⟨"", none, none, []⟩ recC1w
            then some (encryptJ ⟨"", none, none, []⟩ recC1w)
            else if k = "c1" then some recC1 else none
          trace := [] ++ [.setC (recKey ⟨"", none, none, []⟩ recC1w)
            (encryptJ ⟨"", none, none, []⟩ recC1w) true none] }) :=
  set_mismatch_rejects_after_write ⟨"", none, none, []⟩
    { exStEmpty with kv := fun k => if k = "c1" then some recC1 else none }
    recC1w recC1w recC1 rfl rfl rfl rfl

/-- C3 (code bug): with encryption enabled, the very first `set` of a record
— the store holding no previous value at its key — does not succeed:
`decrypt` is applied to the `null` returned by the get-and-set, and
`fromToken(null)` fails, so the call throws a decoding error.  The theorem
evaluates the code at this failing input: the call errors, and yet the new
opaque ciphertext token (not structurally equal to the record or to its
plaintext serialization) is already stored and a subsequent `get` returns
the record intact. -/
theorem set_encrypted_first_write_decode_error :
    (collSet ⟨"", none, some exTok, []⟩ exStEmpty recC1 none).1 = .error .decodeError ∧
    (collSet ⟨"", none, some exTok, []⟩ exStEmpty recC1 none).2.kv "c1" =
      some (.str (Tok.toToken exTok recC1)) ∧
    JVal.str (Tok.toToken exTok recC1) ≠ recC1 ∧
    Tok.toToken exTok recC1 ≠ jsonStringify recC1 ∧
    (collGet ⟨"", none, some exTok, []⟩
        (collSet ⟨"", none, some exTok, []⟩ exStEmpty recC1 none).2 (.str "c1")).1 =
      .ok (some recC1) :=
  ⟨rfl, rfl, by decide, by decide, rfl⟩

/-- C7 (modelled from the spec, `delete` being absent from src): `delete`
removes the stored key — a subsequent `get` of the same id yields the
not-found result — while leaving every index-entry set untouched. -/
theorem delete_removes_key_keeps_indexes (cfg : CollectionCfg) (st : RedisState) (id : JVal) :
    (collGet cfg (collDelete cfg st id) id).1 = .ok none ∧
    (collDelete cfg st id).sets = st.sets ∧
    (collDelete cfg st id).kv (keyOf cfg id) = none := by
  refine ⟨?_, rfl, by simp [collDelete]⟩
  simp [collGet, collDelete, jread, truthyJ]

/-- C8: a `set` on a Collection without a default TTL never changes any
key's time-to-live (the `keepTtl` write preserves an independently-set
expiry), whatever the outcome; `setex` on an index-free Collection always
succeeds returning the input record verbatim — the previous value is not
decoded, so no decode error can arise — and replaces the key's expiry with
the explicit `ttl` seconds. -/
theorem set_keeps_ttl_setex_replaces :
    (∀ (cfg : CollectionCfg) (st : RedisState) (data : JVal) (eo : Option JVal)
        (r : Except DbErr JVal) (st' : RedisState),
      truthyTTL cfg.defaultTTL = false →
      collSet cfg st data eo = (r, st') → st'.ttl = st.ttl) ∧
    (∀ (cfg : CollectionCfg) (st : RedisState) (data : JVal) (n : Nat),
      cfg.indexes = [] →
      collSetex cfg st data n =
        (.ok data,
          { st with
            kv := fun k => if k = recKey cfg data then some (encryptJ cfg data) else st.kv k
            ttl := fun k => if k = recKey cfg data then some n else st.ttl k
            trace := st.trace ++ [.setC (recKey cfg data) (encryptJ cfg data) false (some n)] })) := by
  constructor
  · intro cfg st data eo r st' httl hset
    simp only [collSet, httl, Bool.false_eq_true, if_false] at hset
    split at hset
    · cases hset; rfl
    · split at hset
      · cases hset; rfl
      · split at hset
        · cases hset; rfl
        · split at hset
          · cases hset; exact execPipe_ttl _ _
          · split at hset
            · cases hset; rfl
            · split at hset
              · cases hset; exact execPipe_ttl _ _
              · cases hset; rfl
  · intro cfg st data n h
    simp [collSetex, h]

theorem set_keeps_ttl_setex_replaces_witness :
    (collSet ⟨"", none, none, []⟩
        { exStEmpty with ttl := fun k => if k = "c1" then some 7 else none }
        recC1 none).2.ttl =
      ({ exStEmpty with ttl := fun k => if k = "c1" then some 7 else none } : RedisState).ttl ∧
    collSetex ⟨"", none, none, []⟩ exStEmpty recC1 9 =
      (.ok recC1,
        { exStEmpty with
          kv := fun k => if k = recKey ⟨"", none, none, []⟩ recC1
            then some (encryptJ ⟨"", none, none, []⟩ recC1) else none
          ttl := fun k => if k = recKey ⟨"", none, none, []⟩ recC1 then some 9 else none
          trace := [] ++ [.setC (recKey ⟨"", none, none, []⟩ recC1)
            (encryptJ ⟨"", none, none, []⟩ recC1) false (some 9)] }) :=
  ⟨set_keeps_ttl_setex_replaces.1 ⟨"", none, none, []⟩
      { exStEmpty with ttl := fun k => if k = "c1" then some 7 else none }
      recC1 none _ _ rfl rfl,
    set_keeps_ttl_setex_replaces.2 ⟨"", none, none, []⟩ exStEmpty recC1 9 rfl⟩

/-- C9: the codec round-trip law — for every structured value and every
tokenizer successfully constructed from a fixed key and IV,
`fromToken (toToken v) = v` — and the construction-time guard: an empty or
missing secret key or IV makes the `Tokenizer` constructor fail. -/
theorem tokenizer_roundtrip_and_ctor_guard :
    (∀ secret iv, (secret = "" ∨ iv = "") → mkTokenizer secret iv = .error .emptyKeyOrIV) ∧
    (∀ secret iv t, mkTokenizer secret iv = .ok t →
      ∀ v : JVal, Tok.fromToken t (Tok.toToken t v) = .ok v) := by
  constructor
  · intro s iv h
    simp [mkTokenizer, h]
  · intro s iv t _ v
    exact fromToken_toToken t v

theorem tokenizer_roundtrip_and_ctor_guard_witness :
    mkTokenizer "" "bb" = .error .emptyKeyOrIV ∧
    Tok.fromToken ⟨"aa", "bb"⟩ (Tok.toToken ⟨"aa", "bb"⟩ (.str "x")) = .ok (.str "x") :=
  ⟨tokenizer_roundtrip_and_ctor_guard.1 "" "bb" (Or.inl rfl),
    tokenizer_roundtrip_and_ctor_guard.2 "aa" "bb" ⟨"aa", "bb"⟩ rfl (.str "x")⟩

/-- C10: a configured default TTL of `0` is normalized away by the
constructor (`meta?.defaultTTL || null`), so the Collection has no default
TTL: `addIndex` succeeds (no TTL-collection configuration error), and `set`
takes the non-expiring `keepTtl` write path — succeeding where a delegation
to `setex` would not set `keepTtl` (and, once an index is registered, would
throw the setex-with-indexes configuration error). -/
theorem zero_ttl_treated_as_no_ttl (kp : Option String) (cfg : CollectionCfg)
    (hc : mkCollection kp none (some 0) = .ok cfg) :
    cfg.defaultTTL = none ∧
    (∀ f, addIndex cfg f = .ok ({ cfg with indexes := cfg.indexes ++ [f] }, f)) ∧
    (∀ st data, collSet cfg st data none =
      (.ok data,
        { st with
          kv := fun k => if k = recKey cfg data then some (encryptJ cfg data) else st.kv k
          trace := st.trace ++ [.setC (recKey cfg data) (encryptJ cfg data) true none] })) := by
  cases kp with
  | none =>
    have hcfg : cfg = ⟨"", none, none, []⟩ := (Except.ok.inj hc).symm
    subst hcfg
    exact ⟨rfl, fun f => rfl, fun st data => rfl⟩
  | some s =>
    have hcfg : cfg = ⟨if s ≠ "" then s ++ ":" else "", none, none, []⟩ := (Except.ok.inj hc).symm
    subst hcfg
    exact ⟨rfl, fun f => rfl, fun st data => rfl⟩

theorem zero_ttl_treated_as_no_ttl_witness :
    (⟨"c:", none, none, []⟩ : CollectionCfg).defaultTTL = none ∧
    addIndex ⟨"c:", none, none, []⟩ "name" = .ok (⟨"c:", none, none, ["name"]⟩, "name") ∧
    collSet ⟨"c:", none, none, []⟩ exStEmpty recC1 none =
      (.ok recC1,
        { exStEmpty with
          kv := fun k => if k = recKey ⟨"c:", none, none, []⟩ recC1
            then some (encryptJ ⟨"c:", none, none, []⟩ recC1) else none
          trace := [] ++ [.setC (recKey ⟨"c:", none, none, []⟩ recC1)
            (encryptJ ⟨"c:", none, none, []⟩ recC1) true none] }) :=
  ⟨(zero_ttl_treated_as_no_ttl (some "c") ⟨"c:", none, none, []⟩ rfl).1,
    (zero_ttl_treated_as_no_ttl (some "c") ⟨"c:", none, none, []⟩ rfl).2.1 "name",
    (zero_ttl_treated_as_no_ttl (some "c") ⟨"c:", none, none, []⟩ rfl).2.2 exStEmpty recC1⟩

/-! ### Lookup lemmas for the spread merge (claim C4) -/

theorem lookupF_overrideFields (k : String) (fs p : JFields) :
    lookupF k (overrideFields fs p) = (lookupF k fs).map (fun v => (lookupF k p).getD v) := by
  match fs with
  | .nil => rfl
  | .cons k' v r =>
    have ih := lookupF_overrideFields k r p
    by_cases hk : k' = k
    · subst hk; simp [overrideFields, lookupF]
    · simp [overrideFields, lookupF, hk, ih]

theorem lookupF_appendF (k : String) (a b : JFields) :
    lookupF k (appendF a b) =
      (match lookupF k a with
       | some v => some v
       | none => lookupF k b) := by
  match a with
  | .nil => rfl
  | .cons k' v r =>
    have ih := lookupF_appendF k r b
    by_cases hk : k' = k
    · subst hk; simp [appendF, lookupF]
    · simp [appendF, lookupF, hk, ih]

theorem lookupF_newKeys_of_none (k : String) (base p : JFields)
    (hp : lookupF k p = none) : lookupF k (newKeys base p) = none := by
  match p with
  | .nil => rfl
  | .cons k' v r =>
    by_cases hk : k' = k
    · subst hk; simp [lookupF] at hp
    · simp only [lookupF, hk, if_false] at hp
      have ih := lookupF_newKeys_of_none k base r hp
      by_cases hb : (lookupF k' base).isSome
      · simp [newKeys, hb, ih]
      · simp [newKeys, hb, lookupF, hk, ih]

theorem getField_spreadMerge_id (item : JVal) (p : JFields)
    (hp : lookupF "id" p = none) :
    getField (spreadMerge item p) "id" = getField item "id" := by
  cases item with
  | obj fs =>
    simp only [spreadMerge, mergeFields, getField, lookupF_appendF,
      lookupF_overrideFields, hp]
    cases hfs : lookupF "id" fs with
    | some v => simp
    | none => simp [lookupF_newKeys_of_none "id" fs p hp]
  | null =>
    simp [spreadMerge, mergeFields, getField, lookupF_appendF, overrideFields,
      lookupF, lookupF_newKeys_of_none "id" JFields.nil p hp]
  | undefined =>
    simp [spreadMerge, mergeFields, getField, lookupF_appendF, overrideFields,
      lookupF, lookupF_newKeys_of_none "id" JFields.nil p hp]
  | str s =>
    simp [spreadMerge, mergeFields, getField, lookupF_appendF, overrideFields,
      lookupF, lookupF_newKeys_of_none "id" JFields.nil p hp]
  | num n =>
    simp [spreadMerge, mergeFields, getField, lookupF_appendF, overrideFields,
      lookupF, lookupF_newKeys_of_none "id" JFields.nil p hp]

/-- A record `(id: "a", x: 1)`. -/
def recA : JVal := .obj (.cons "id" (.str "a") (.cons "x" (.num 1) .nil))

/-- The merge of `recA` with the id-overriding patch `(id: "b")`. -/
def recB : JVal := .obj (.cons "id" (.str "b") (.cons "x" (.num 1) .nil))

/-- Store holding only `recA` at key `"a"`. -/
def stC4 : RedisState :=
  { exStEmpty with kv := fun k => if k = "a" then some recA else none }

/-- C4 counterexample: `update("a", (id: "b"))` — a patch carrying a value
for the primary-key field — does not preserve the primary key: the spread
`(...item, ...patch)` lets the patch win, the merged record handed to `set`
has id `"b"`, and the write lands at key `"b"` (each attempt's concurrency
check then fails against the record at the new key, so the call ends in the
terminal update error after its retries, the mis-keyed record remaining
stored). -/
theorem update_id_patch_counterexample :
    getField (spreadMerge recA (.cons "id" (.str "b") .nil)) "id" = .str "b" ∧
    (collUpdate ⟨"", none, none, []⟩ stC4 (.str "a")
        (.patch (.cons "id" (.str "b") .nil)) 3).1 = .error .noRetriesLeft ∧
    (collUpdate ⟨"", none, none, []⟩ stC4 (.str "a")
        (.patch (.cons "id" (.str "b") .nil)) 3).2.kv "b" = some recB ∧
    (collUpdate ⟨"", none, none, []⟩ stC4 (.str "a")
        (.patch (.cons "id" (.str "b") .nil)) 3).2.kv "a" = some recA :=
  ⟨rfl, rfl, rfl, rfl⟩

/-- C4 (amended): provided the patch object — or the transform callback's
result — does not itself bind the primary-key field, `update` merges it
over the current record with the primary key preserved, and the record
handed to `set` (and so written) has primary key equal to that of the
record read at the start; a patch binding the primary-key field instead
overrides it. -/
theorem update_preserves_id_amended (cfg : CollectionCfg) (st st1 st2 : RedisState)
    (idv R : JVal) (arg : UpdateArg) (rem : Nat)
    (hget : collGet cfg st idv = (.ok (some R), st1))
    (hp : lookupF "id" (effPatch arg R) = none)
    (hset : collSet cfg st1 (spreadMerge R (effPatch arg R)) (some R) =
      (.ok (spreadMerge R (effPatch arg R)), st2)) :
    collUpdate cfg st idv arg rem = (.ok (spreadMerge R (effPatch arg R)), st2) ∧
    getField (spreadMerge R (effPatch arg R)) "id" = getField R "id" := by
  refine ⟨?_, getField_spreadMerge_id R (effPatch arg R) hp⟩
  simp only [collUpdate, hget, hset]

theorem update_preserves_id_amended_witness :
    collUpdate ⟨"", none, none, []⟩ stC4 (.str "a") (.patch (.cons "x" (.num 2) .nil)) 3 =
      (.ok (spreadMerge recA (.cons "x" (.num 2) .nil)),
        (collSet ⟨"", none, none, []⟩
          (collGet ⟨"", none, none, []⟩ stC4 (.str "a")).2
          (spreadMerge recA (.cons "x" (.num 2) .nil)) (some recA)).2) ∧
    getField (spreadMerge recA (.cons "x" (.num 2) .nil)) "id" = getField recA "id" :=
  update_preserves_id_amended ⟨"", none, none, []⟩ stC4
    (collGet ⟨"", none, none, []⟩ stC4 (.str "a")).2
    (collSet ⟨"", none, none, []⟩
      (collGet ⟨"", none, none, []⟩ stC4 (.str "a")).2
      (spreadMerge recA (.cons "x" (.num 2) .nil)) (some recA)).2
    (.str "a") recA (.patch (.cons "x" (.num 2) .nil)) 3 rfl rfl rfl

/-! ### Pointwise characterization of the `getMany` decode map (claim C6) -/

theorem mapDecode_ok_char (cfg : CollectionCfg) (ds : List JVal) (vs : List (Option JVal))
    (h : mapDecode cfg ds = .ok vs) :
    vs = ds.map (fun d => if truthyJ d = false then none else (decryptJ cfg d).toOption) ∧
    ∀ d ∈ ds, truthyJ d = true → ∃ v, decryptJ cfg d = .ok v := by
  induction ds generalizing vs with
  | nil =>
    simp only [mapDecode, Except.ok.injEq] at h
    subst h
    exact ⟨rfl, by simp⟩
  | cons d ds ih =>
    by_cases ht : truthyJ d = false
    · simp only [mapDecode, ht, if_true, if_pos] at h
      cases hm : mapDecode cfg ds with
      | error e => rw [hm] at h; cases h
      | ok vs' =>
        rw [hm] at h
        cases h
        obtain ⟨h1, h2⟩ := ih vs' hm
        refine ⟨by simp [ht, h1], ?_⟩
        intro x hx htx
        rcases List.mem_cons.mp hx with hx | hx
        · subst hx; simp [htx] at ht
        · exact h2 x hx htx
    · rw [Bool.not_eq_false] at ht
      cases hd : decryptJ cfg d with
      | error e => simp [mapDecode, ht, hd, Except.map] at h
      | ok v =>
        simp only [mapDecode, ht, Bool.true_eq_false, if_false, hd, Except.map] at h
        cases hm : mapDecode cfg ds with
        | error e => rw [hm] at h; cases h
        | ok vs' =>
          rw [hm] at h
          cases h
          obtain ⟨h1, h2⟩ := ih vs' hm
          refine ⟨by simp [ht, h1, hd, Except.toOption], ?_⟩
          intro x hx htx
          rcases List.mem_cons.mp hx with hx | hx
          · subst hx; exact ⟨v, hd⟩
          · exact h2 x hx htx

/-- C6 (amended): `getMany` on empty input returns the empty list with the
state — in particular the command trace — unchanged (no store round trip);
on non-empty input a successful call returns one output per input position,
a position whose stored value is absent (falsy) mapping to the not-found
`none` and every other position to its individually decoded record; but a
decode failure on any one element aborts the whole call with a decode
error instead of returning the other elements. -/
theorem getMany_aligned_empty_noop_abort :
    (∀ (cfg : CollectionCfg) (st : RedisState), collGetMany cfg st [] = (.ok [], st)) ∧
    (∀ (cfg : CollectionCfg) (st : RedisState) (ids : List JVal) (out : List (Option JVal))
        (st' : RedisState),
      collGetMany cfg st ids = (.ok out, st') →
      out = ids.map (fun id =>
        if truthyJ (jread st (keyOf cfg id)) = false then none
        else (decryptJ cfg (jread st (keyOf cfg id))).toOption) ∧
      ∀ id ∈ ids, truthyJ (jread st (keyOf cfg id)) = true →
        ∃ v, decryptJ cfg (jread st (keyOf cfg id)) = .ok v) ∧
    (∀ (cfg : CollectionCfg) (st : RedisState) (ids : List JVal),
      (∃ id ∈ ids, truthyJ (jread st (keyOf cfg id)) = true ∧
        ∀ v, decryptJ cfg (jread st (keyOf cfg id)) ≠ .ok v) →
      ∃ (e : DbErr) (st' : RedisState), collGetMany cfg st ids = (.error e, st')) := by
  refine ⟨fun cfg st => rfl, ?_, ?_⟩
  · intro cfg st ids out st' h
    match ids with
    | [] =>
      simp only [collGetMany, Prod.mk.injEq, Except.ok.injEq] at h
      simp [← h.1]
    | i :: is =>
      obtain ⟨kv, ttl, sets, trace, waits⟩ := st
      simp only [collGetMany] at h
      cases hm : mapDecode cfg ((List.map (keyOf cfg) (i :: is)).map (fun k => (kv k).getD .null)) with
      | error e =>
        rw [hm] at h
        exact absurd (congrArg Prod.fst h) (by simp)
      | ok vs =>
        rw [hm] at h
        have hout : vs = out := Except.ok.inj (congrArg Prod.fst h)
        subst hout
        obtain ⟨h1, h2⟩ := mapDecode_ok_char cfg _ vs hm
        constructor
        · rw [h1, List.map_map, List.map_map]
          rfl
        · intro id hid htid
          exact h2 ((fun k => (kv k).getD .null) (keyOf cfg id))
            (by
              rw [List.map_map]
              exact List.mem_map_of_mem _ hid) htid
  · intro cfg st ids hbad
    match ids with
    | [] => obtain ⟨id, hid, -⟩ := hbad; cases hid
    | i :: is =>
      obtain ⟨kv, ttl, sets, trace, waits⟩ := st
      cases hm : mapDecode cfg ((List.map (keyOf cfg) (i :: is)).map (fun k => (kv k).getD .null)) with
      | error e =>
        refine ⟨e, ⟨kv, ttl, sets, trace ++ [.mgetC (List.map (keyOf cfg) (i :: is))], waits⟩, ?_⟩
        simp only [collGetMany, hm]
      | ok vs =>
        exfalso
        obtain ⟨-, h2⟩ := mapDecode_ok_char cfg _ vs hm
        obtain ⟨id, hid, htid, hfail⟩ := hbad
        obtain ⟨v, hv⟩ := h2 ((fun k => (kv k).getD .null) (keyOf cfg id))
          (by
            rw [List.map_map]
            exact List.mem_map_of_mem _ hid) htid
        exact hfail v hv

/-- Store for the C6 counterexample: a decodable token at `"a"` and an
undecodable stored string at `"b"`. -/
def stC6 : RedisState :=
  { exStEmpty with kv := fun k =>
      if k = "a" then some (.str (Tok.toToken exTok recC1))
      else if k = "b" then some (.str "garbage") else none }

/-- C6 counterexample: on an encrypted collection, `getMany(["a","b"])`
with a perfectly decodable record at `"a"` and an undecodable token at
`"b"` returns a decode error for the whole call — the decodable element is
not returned, refuting "a decode failure on any one element does not abort
the decoding or return of the other elements". -/
theorem getMany_decode_failure_aborts_counterexample :
    (collGetMany ⟨"", none, some exTok, []⟩ stC6 [.str "a", .str "b"]).1 = .error .decodeError ∧
    decryptJ ⟨"", none, some exTok, []⟩
      (jread stC6 (keyOf ⟨"", none, some exTok, []⟩ (.str "a"))) = .ok recC1 :=
  ⟨rfl, rfl⟩

theorem getMany_aligned_empty_noop_abort_witness :
    collGetMany ⟨"", none, none, []⟩ stC4 [] = (.ok [], stC4) ∧
    ([some recA, none] : List (Option JVal)) =
      ([.str "a", .str "zz"] : List JVal).map (fun id =>
        if truthyJ (jread stC4 (keyOf ⟨"", none, none, []⟩ id)) = false then none
        else (decryptJ ⟨"", none, none, []⟩ (jread stC4 (keyOf ⟨"", none, none, []⟩ id))).toOption) :=
  ⟨getMany_aligned_empty_noop_abort.1 ⟨"", none, none, []⟩ stC4,
    by
      have h := (getMany_aligned_empty_noop_abort.2.1 ⟨"", none, none, []⟩ stC4
        [.str "a", .str "zz"] [some recA, none]
        (collGetMany ⟨"", none, none, []⟩ stC4 [.str "a", .str "zz"]).2 rfl).1
      exact h⟩

/-! ### Claim C5: `update`'s retry behaviour -/

/-- Encrypted, indexed configuration used by the C5 instances. -/
def cfgC5 : CollectionCfg := ⟨"", none, some exTok, ["name"]⟩

/-- Store holding the token of `recC1` at key `"c1"`. -/
def stC5 : RedisState :=
  { exStEmpty with kv := fun k =>
      if k = "c1" then some (.str (Tok.toToken exTok recC1)) else none }

/-- C5 counterexample: on an encrypted Collection with one index and an
existing decodable record, the inner `set` of an `update` fails with a
decode error (line 106 re-decodes the already-decoded previous record), not
with a concurrent-update error — yet `update` retries it (three fixed
100 ms backoffs are recorded) and then replaces it with the terminal update
error instead of propagating the decode error unmodified. -/
theorem update_retries_decode_error_counterexample :
    (collSet cfgC5 (collGet cfgC5 stC5 (.str "c1")).2
        (spreadMerge recC1 (.cons "name" (.str "w") .nil)) (some recC1)).1 =
      .error .decodeError ∧
    (collUpdate cfgC5 stC5 (.str "c1") (.patch (.cons "name" (.str "w") .nil)) 3).1 =
      .error .noRetriesLeft ∧
    (collUpdate cfgC5 stC5 (.str "c1") (.patch (.cons "name" (.str "w") .nil)) 3).2.waits =
      [100, 100, 100] :=
  ⟨rfl, rfl, rfl⟩

/-- Stores in which every stored value is the token of some record object
under the tokenizer `t` (the shape every reachable encrypted store has). -/
def tokenStore (t : Tok) (st : RedisState) : Prop :=
  ∀ k v, st.kv k = some v → ∃ gs : JFields, v = .str (Tok.toToken t (.obj gs))

theorem toToken_ne_empty (t : Tok) (v : JVal) : Tok.toToken t v ≠ "" := by
  intro h
  have hd := congrArg String.data h
  simp [Tok.toToken, cipherEncrypt] at hd

/-- On an encrypted store of record tokens, `get` of a present key decodes
the stored record and only appends the read to the trace. -/
theorem collGet_token_ok (cfg : CollectionCfg) (t : Tok) (htok : cfg.tokenizer = some t)
    (st : RedisState) (idv : JVal) (gs : JFields)
    (hv : st.kv (keyOf cfg idv) = some (.str (Tok.toToken t (.obj gs)))) :
    collGet cfg st idv =
      (.ok (some (.obj gs)),
        ⟨st.kv, st.ttl, st.sets, st.trace ++ [.getC (keyOf cfg idv)], st.waits⟩) := by
  obtain ⟨kv, ttl, sets, trace, waits⟩ := st
  simp only at hv
  have hne : Tok.toToken t (.obj gs) ≠ "" := toToken_ne_empty t (.obj gs)
  simp [collGet, hv, truthyJ, hne, decryptJ, htok, fromToken_toToken]

/-- On an encrypted Collection with at least one registered index, `set`
against a store of record tokens always throws — the previous token either
is absent (decode of `null` fails), or decodes to a record that fails the
concurrency comparison, or, past that, is re-decoded as a record object by
line 106 and fails — and in every case the new token has already been
written and no pipeline command has run. -/
theorem collSet_token_always_fails (cfg : CollectionCfg) (t : Tok)
    (htok : cfg.tokenizer = some t) (httl : truthyTTL cfg.defaultTTL = false)
    (hidx : cfg.indexes ≠ []) (st : RedisState) (ds gs : JFields)
    (hwf : tokenStore t st) :
    ∃ e : DbErr, collSet cfg st (.obj ds) (some (.obj gs)) =
      (.error e,
        ⟨fun k => if k = recKey cfg (.obj ds) then some (.str (Tok.toToken t (.obj ds))) else st.kv k,
          st.ttl, st.sets,
          st.trace ++ [.setC (recKey cfg (.obj ds)) (.str (Tok.toToken t (.obj ds))) true none],
          st.waits⟩) := by
  obtain ⟨kv, ttl, sets, trace, waits⟩ := st
  cases hraw : kv (recKey cfg (.obj ds)) with
  | none =>
    refine ⟨.decodeError, ?_⟩
    simp [collSet, httl, hraw, decryptJ, htok, encryptJ]
  | some w =>
    obtain ⟨ws, hw⟩ := hwf _ w hraw
    subst hw
    by_cases hmis : isEqualJ (.obj ws) (.obj gs) = false
    · refine ⟨.concurrentUpdate, ?_⟩
      simp [collSet, httl, hraw, decryptJ, htok, encryptJ, fromToken_toToken, truthyJ, hmis]
    · rw [Bool.not_eq_false] at hmis
      refine ⟨.decodeError, ?_⟩
      simp [collSet, httl, hraw, decryptJ, htok, encryptJ, fromToken_toToken, truthyJ,
        hmis, hidx]

/-- C5 (amended): `update` retries the whole read-merge-write cycle on any
failure of its inner `set` — concurrent-update and decode errors alike —
with a fixed 100 ms backoff recorded between attempts and a retry budget of
3, and once the budget is exhausted it fails with the terminal update
error, which replaces rather than propagates the inner error; errors of the
initial read are not retried.  Instantiated on encrypted collections with a
registered index, where the inner `set` always fails. -/
theorem update_terminal_after_retries_amended (cfg : CollectionCfg) (t : Tok)
    (htok : cfg.tokenizer = some t) (httl : truthyTTL cfg.defaultTTL = false)
    (hidx : cfg.indexes ≠ []) (st : RedisState) (idv : JVal) (arg : UpdateArg)
    (rem : Nat) (hwf : tokenStore t st) (hpres : st.kv (keyOf cfg idv) ≠ none) :
    ∃ st' : RedisState, collUpdate cfg st idv arg rem = (.error .noRetriesLeft, st') ∧
      st'.waits = st.waits ++ List.replicate rem 100 := by
  induction rem generalizing st with
  | zero =>
    obtain ⟨v0, hv0⟩ := Option.ne_none_iff_exists'.mp hpres
    obtain ⟨gs, hgs⟩ := hwf _ v0 hv0
    subst hgs
    have hA := collGet_token_ok cfg t htok st idv gs hv0
    have hwf1 : tokenStore t ⟨st.kv, st.ttl, st.sets, st.trace ++ [.getC (keyOf cfg idv)], st.waits⟩ :=
      fun k v h => hwf k v h
    obtain ⟨e, hB⟩ := collSet_token_always_fails cfg t htok httl hidx
      ⟨st.kv, st.ttl, st.sets, st.trace ++ [.getC (keyOf cfg idv)], st.waits⟩
      (mergeFields gs (effPatch arg (.obj gs))) gs hwf1
    refine ⟨⟨fun k => if k = recKey cfg (.obj (mergeFields gs (effPatch arg (.obj gs))))
        then some (.str (Tok.toToken t (.obj (mergeFields gs (effPatch arg (.obj gs))))))
        else st.kv k,
      st.ttl, st.sets,
      st.trace ++ [.getC (keyOf cfg idv)] ++
        [.setC (recKey cfg (.obj (mergeFields gs (effPatch arg (.obj gs)))))
          (.str (Tok.toToken t (.obj (mergeFields gs (effPatch arg (.obj gs)))))) true none],
      st.waits⟩, ?_, by simp⟩
    simp only [collUpdate, hA, spreadMerge, hB]
  | succ r ih =>
    obtain ⟨v0, hv0⟩ := Option.ne_none_iff_exists'.mp hpres
    obtain ⟨gs, hgs⟩ := hwf _ v0 hv0
    subst hgs
    have hA := collGet_token_ok cfg t htok st idv gs hv0
    have hwf1 : tokenStore t ⟨st.kv, st.ttl, st.sets, st.trace ++ [.getC (keyOf cfg idv)], st.waits⟩ :=
      fun k v h => hwf k v h
    obtain ⟨e, hB⟩ := collSet_token_always_fails cfg t htok httl hidx
      ⟨st.kv, st.ttl, st.sets, st.trace ++ [.getC (keyOf cfg idv)], st.waits⟩
      (mergeFields gs (effPatch arg (.obj gs))) gs hwf1
    have hwf2 : tokenStore t
        ⟨fun k => if k = recKey cfg (.obj (mergeFields gs (effPatch arg (.obj gs))))
            then some (.str (Tok.toToken t (.obj (mergeFields gs (effPatch arg (.obj gs))))))
            else st.kv k,
          st.ttl, st.sets,
          st.trace ++ [.getC (keyOf cfg idv)] ++
            [.setC (recKey cfg (.obj (mergeFields gs (effPatch arg (.obj gs)))))
              (.str (Tok.toToken t (.obj (mergeFields gs (effPatch arg (.obj gs)))))) true none],
          st.waits ++ [100]⟩ := by
      intro k v h
      simp only at h
      by_cases hk : k = recKey cfg (.obj (mergeFields gs (effPatch arg (.obj gs))))
      · rw [if_pos hk] at h
        exact ⟨_, (Option.some.inj h).symm⟩
      · rw [if_neg hk] at h
        exact hwf k v h
    have hpres2 :
        (⟨fun k => if k = recKey cfg (.obj (mergeFields gs (effPatch arg (.obj gs))))
            then some (.str (Tok.toToken t (.obj (mergeFields gs (effPatch arg (.obj gs))))))
            else st.kv k,
          st.ttl, st.sets,
          st.trace ++ [.getC (keyOf cfg idv)] ++
            [.setC (recKey cfg (.obj (mergeFields gs (effPatch arg (.obj gs)))))
              (.str (Tok.toToken t (.obj (mergeFields gs (effPatch arg (.obj gs)))))) true none],
          st.waits ++ [100]⟩ : RedisState).kv (keyOf cfg idv) ≠ none := by
      simp only
      by_cases hk : keyOf cfg idv = recKey cfg (.obj (mergeFields gs (effPatch arg (.obj gs))))
      · rw [if_pos hk]
        exact Option.some_ne_none _
      · rw [if_neg hk, hv0]
        exact Option.some_ne_none _
    obtain ⟨st'', h1, h2⟩ := ih _ hwf2 hpres2
    refine ⟨st'', ?_, ?_⟩
    · rw [collUpdate.eq_def, hA]
      simp only [spreadMerge]
      rw [hB]
      simp only []
      exact h1
    · rw [h2]
      simp [List.replicate_succ]

theorem update_terminal_after_retries_amended_witness :
    ∃ st' : RedisState,
      collUpdate cfgC5 stC5 (.str "c1") (.patch (.cons "name" (.num 7) .nil)) 3 =
        (.error .noRetriesLeft, st') ∧
      st'.waits = stC5.waits ++ List.replicate 3 100 :=
  update_terminal_after_retries_amended cfgC5 exTok rfl rfl
    (by intro h; cases h) stC5 (.str "c1") (.patch (.cons "name" (.num 7) .nil)) 3
    (by
      intro k v h
      simp only [stC5, exStEmpty] at h
      by_cases hk : k = "c1"
      · rw [if_pos hk] at h
        exact ⟨.cons "id" (.str "c1") (.cons "name" (.str "v") .nil), (Option.some.inj h).symm⟩
      · rw [if_neg hk] at h
        cases h)
    (by
      intro h
      simp only [stC5, exStEmpty, cfgC5, keyOf, jToString] at h
      cases h)

/-! ### Claim C2: index maintenance across an overwrite -/

theorem string_data_append (a b : String) : (a ++ b).data = a.data ++ b.data := rfl

theorem string_eq_of_data {a b : String} (h : a.data = b.data) : a = b :=
  congrArg String.mk h

/-- Two index-entry keys for the same field differ whenever the serialized
forms of the two field values differ. -/
theorem idxKey_ne_of_toString_ne (cfg : CollectionCfg) (F : String) (a b : JVal)
    (h : jToString a ≠ jToString b) : idxKey cfg F a ≠ idxKey cfg F b := by
  intro he
  apply h
  have hd := congrArg String.data he
  simp only [idxKey, string_data_append] at hd
  exact string_eq_of_data (List.append_cancel_left hd)

/-- Collection with prefix `p`, one index on `F`. -/
def cfgC2 : CollectionCfg := ⟨"p:", none, none, ["F"]⟩

/-- Collection with prefix `q`, one index on the object-valued field `G`. -/
def cfgC2g : CollectionCfg := ⟨"q:", none, none, ["G"]⟩

/-- A record `(id: "a", F: 1)` — the index value is the number `1`. -/
def recN1 : JVal := .obj (.cons "id" (.str "a") (.cons "F" (.num 1) .nil))

/-- The overwrite `(id: "a", F: "1")` — the index value is the string `"1"`,
which is strictly unequal to the number `1` but has the same serialized
form. -/
def recS1 : JVal := .obj (.cons "id" (.str "a") (.cons "F" (.str "1") .nil))

/-- A record `(id: "a", G: ())` whose indexed field holds an (empty) object. -/
def recObjG : JVal := .obj (.cons "id" (.str "a") (.cons "G" (.obj .nil) .nil))

/-- C2 counterexample.  Part one: overwriting `(id:"a", F: 1)` with
`(id:"a", F: "1")` — field values unequal under the code's comparison, so
the claim demands that `getItems(R'.F)` return the record — leaves the
shared index-entry set `p:idx_F:1` empty, because the `sadd` under the new
value and the `srem` under the old value hit the same serialized key and
the `srem` executes last; `getItems` of the new value returns nothing.
Part two: re-writing the identical record whose indexed field holds an
object issues a spurious `srem` (JavaScript `!==` compares object
references), emptying the entry set even though the field never changed. -/
theorem set_index_move_counterexample :
    (collSet cfgC2 exStEmpty recN1 none).1 = .ok recN1 ∧
    (collSet cfgC2 (collSet cfgC2 exStEmpty recN1 none).2 recS1 none).1 = .ok recS1 ∧
    strictEqJs (.num 1) (.str "1") = false ∧
    isEqualJ (.num 1) (.str "1") = false ∧
    (collSet cfgC2 (collSet cfgC2 exStEmpty recN1 none).2 recS1 none).2.sets "p:idx_F:1" = [] ∧
    (idxGetItems cfgC2
        (collSet cfgC2 (collSet cfgC2 exStEmpty recN1 none).2 recS1 none).2
        "F" (.str "1")).1 = .ok [] ∧
    (collSet cfgC2g exStEmpty recObjG none).1 = .ok recObjG ∧
    (collSet cfgC2g (collSet cfgC2g exStEmpty recObjG none).2 recObjG none).1 = .ok recObjG ∧
    (collSet cfgC2g (collSet cfgC2g exStEmpty recObjG none).2 recObjG none).2.sets
      "q:idx_G:[object Object]" = [] ∧
    StoreCmd.sremC "q:idx_G:[object Object]" "a" ∈
      (collSet cfgC2g (collSet cfgC2g exStEmpty recObjG none).2 recObjG none).2.trace :=
  ⟨rfl, rfl, rfl, rfl, rfl, rfl, rfl, rfl, rfl, by decide⟩

/-- C2 (amended): on a Collection with indexes on `F` and `G`, after a
successful `set(R)` on a fresh key followed by a successful `set(R')` with
the same id, where `F`'s value changed under the code's strict comparison
*and the two values' serialized forms differ* (distinct index-entry keys —
the counterexample's collision case is excluded), while `G`'s value is
unchanged under the strict comparison (a primitive value; object-valued
fields always compare as changed): the old value's entry set no longer
contains the primary key, the new value's entry set contains exactly it,
`getItems` of the old/new value excludes/returns the record, and no `srem`
is ever issued against the unchanged field's entry set, whose membership is
kept. -/
theorem set_index_move_amended (cfg : CollectionCfg) (st st1 st2 : RedisState)
    (F G : String) (fs fs' : JFields) (idv fv fv' gv : JVal)
    (httl : truthyTTL cfg.defaultTTL = false)
    (hidx : cfg.indexes = [F, G])
    (hid : getField (.obj fs) "id" = idv)
    (hid' : getField (.obj fs') "id" = idv)
    (hF : getField (.obj fs) F = fv)
    (hF' : getField (.obj fs') F = fv')
    (hG : getField (.obj fs) G = gv)
    (hG' : getField (.obj fs') G = gv)
    (hch : strictEqJs fv fv' = false)
    (hgEq : strictEqJs gv gv = true)
    (hser : jToString fv ≠ jToString fv')
    (hk2 : idxKey cfg G gv ≠ idxKey cfg F fv)
    (hk3 : idxKey cfg G gv ≠ idxKey cfg F fv')
    (hkv : st.kv (keyOf cfg idv) = none)
    (hsF : st.sets (idxKey cfg F fv) = [])
    (hsF' : st.sets (idxKey cfg F fv') = [])
    (hsG : st.sets (idxKey cfg G gv) = [])
    (htr : ∀ x, StoreCmd.sremC (idxKey cfg G gv) x ∉ st.trace)
    (h1 : collSet cfg st (.obj fs) none = (.ok (.obj fs), st1))
    (h2 : collSet cfg st1 (.obj fs') none = (.ok (.obj fs'), st2)) :
    st2.sets (idxKey cfg F fv) = [] ∧
    st2.sets (idxKey cfg F fv') = [jToString idv] ∧
    st2.sets (idxKey cfg G gv) = [jToString idv] ∧
    (∀ x, StoreCmd.sremC (idxKey cfg G gv) x ∉ st2.trace) ∧
    (idxGetItems cfg st2 F fv').1 = .ok [.obj fs'] ∧
    (idxGetItems cfg st2 F fv).1 = .ok [] := by
  have hkk' : idxKey cfg F fv ≠ idxKey cfg F fv' := idxKey_ne_of_toString_ne cfg F fv fv' hser
  have hkk'' : idxKey cfg F fv' ≠ idxKey cfg F fv := Ne.symm hkk'
  have hk2' : idxKey cfg F fv ≠ idxKey cfg G gv := Ne.symm hk2
  have hk3' : idxKey cfg F fv' ≠ idxKey cfg G gv := Ne.symm hk3
  cases htok : cfg.tokenizer with
  | some t =>
    exfalso
    simp [collSet, httl, htok, recKey, hid, hkv, decryptJ] at h1
  | none =>
    have hkv' : st.kv (cfg.prefixKey ++ jToString idv) = none := hkv
    have hjs : ∀ s : String, jToString (JVal.str s) = s := fun s => rfl
    have hst1 : st1 = (collSet cfg st (.obj fs) none).2 := by rw [h1]
    subst hst1
    have hst2 : st2 = (collSet cfg (collSet cfg st (.obj fs) none).2 (.obj fs') none).2 := by
      rw [h2]
    subst hst2
    refine ⟨?_, ?_, ?_, ?_, ?_, ?_⟩
    · simp [collSet, httl, htok, recKey, hid, hid', hF, hF', hG, hG', hkv, hkv', decryptJ,
        encryptJ, hidx, execPipe, applyCmd, truthyJ, hch, hgEq, hsF, hsF', hsG,
        hkk', hkk'', hk2, hk2', hk3, hk3', keyOf]
    · simp [collSet, httl, htok, recKey, hid, hid', hF, hF', hG, hG', hkv, hkv', decryptJ,
        encryptJ, hidx, execPipe, applyCmd, truthyJ, hch, hgEq, hsF, hsF', hsG,
        hkk', hkk'', hk2, hk2', hk3, hk3', keyOf]
    · simp [collSet, httl, htok, recKey, hid, hid', hF, hF', hG, hG', hkv, hkv', decryptJ,
        encryptJ, hidx, execPipe, applyCmd, truthyJ, hch, hgEq, hsF, hsF', hsG,
        hkk', hkk'', hk2, hk2', hk3, hk3', keyOf]
    · intro x
      simp [collSet, httl, htok, recKey, hid, hid', hF, hF', hG, hG', hkv, hkv', decryptJ,
        encryptJ, hidx, execPipe, applyCmd, truthyJ, hch, hgEq, hsF, hsF', hsG,
        hkk', hkk'', hk2, hk2', hk3, hk3', keyOf, htr x]
    · simp [collSet, httl, htok, recKey, hid, hid', hF, hF', hG, hG', hkv, hkv', decryptJ,
        encryptJ, hidx, execPipe, applyCmd, truthyJ, hch, hgEq, hsF, hsF', hsG,
        hkk', hkk'', hk2, hk2', hk3, hk3', keyOf, idxGetItems, collGetMany, mapDecode,
        hjs, Except.map, List.filterMap]
    · simp [collSet, httl, htok, recKey, hid, hid', hF, hF', hG, hG', hkv, hkv', decryptJ,
        encryptJ, hidx, execPipe, applyCmd, truthyJ, hch, hgEq, hsF, hsF', hsG,
        hkk', hkk'', hk2, hk2', hk3, hk3', keyOf, idxGetItems, collGetMany, mapDecode,
        hjs, Except.map, List.filterMap]

/-- Record `(id: "a", F: "x", G: "y")`. -/
def fsW2 : JFields := .cons "id" (.str "a") (.cons "F" (.str "x") (.cons "G" (.str "y") .nil))

/-- Record `(id: "a", F: "z", G: "y")`: `F` changed, `G` unchanged. -/
def fsW2' : JFields := .cons "id" (.str "a") (.cons "F" (.str "z") (.cons "G" (.str "y") .nil))

/-- State after writing `fsW2` into an empty store. -/
def stW2 : RedisState := (collSet ⟨"p:", none, none, ["F", "G"]⟩ exStEmpty (.obj fsW2) none).2

/-- State after then overwriting with `fsW2'`. -/
def stW2' : RedisState := (collSet ⟨"p:", none, none, ["F", "G"]⟩ stW2 (.obj fsW2') none).2

theorem set_index_move_amended_witness :
    stW2'.sets "p:idx_F:x" = [] ∧
    stW2'.sets "p:idx_F:z" = ["a"] ∧
    stW2'.sets "p:idx_G:y" = ["a"] ∧
    (∀ x, StoreCmd.sremC "p:idx_G:y" x ∉ stW2'.trace) ∧
    (idxGetItems ⟨"p:", none, none, ["F", "G"]⟩ stW2' "F" (.str "z")).1 = .ok [.obj fsW2'] ∧
    (idxGetItems ⟨"p:", none, none, ["F", "G"]⟩ stW2' "F" (.str "x")).1 = .ok [] :=
  set_index_move_amended ⟨"p:", none, none, ["F", "G"]⟩ exStEmpty stW2 stW2'
    "F" "G" fsW2 fsW2' (.str "a") (.str "x") (.str "z") (.str "y")
    rfl rfl rfl rfl rfl rfl rfl rfl rfl rfl (by decide) (by decide) (by decide)
    rfl rfl rfl rfl (fun x h => nomatch h) rfl rfl

end UpstashDB
